import Mathlib

set_option maxRecDepth 4000

/-!
Verification of the CPU emulator core in `src/cpu.rs`.

The development is a shallow embedding: machine integers are modelled as
`Nat` with explicit `% 2 ^ w` where the Rust code performs wrapping
arithmetic (`wrapping_add`), and Rust panics (array index out of bounds,
`expect` on a missing opcode-table entry, the `todo!()` dispatch arm, and
the `panic!` for the `NoneAddressing` sentinel) are modelled as `CpuError`
values threaded through `Except` and explicit result types.
-/

namespace Nese

/-- Embeds `enum AddressingMode` from `src/cpu.rs`. -/
inductive AddressingMode where
  | Immediate
  | ZeroPage
  | ZeroPage_X
  | ZeroPage_Y
  | Absolute
  | Absolute_X
  | Absolute_Y
  | Indirect_X
  | Indirect_Y
  | NoneAddressing
deriving DecidableEq, Repr

/-- Enumerates the fatal conditions of the core, each corresponding to a Rust
panic site: array indexing out of bounds in `mem_read`/`mem_write`, the
`expect` on a missing opcode-table entry in `run`, the `todo!()` arm of
`run`'s dispatch match, and the `panic!` for `NoneAddressing` in
`get_operand_address`. -/
inductive CpuError where
  | indexOutOfBounds
  | unsupportedOpcode (code : Nat)
  | notImplemented (code : Nat)
  | invalidAddressingModeUse
deriving DecidableEq, Repr

/-- Embeds `struct CPU` from `src/cpu.rs`. The array `memory: [u8; 0xFFFF]`
is modelled as a total function on addresses; `mem_read`/`mem_write` enforce
the array bound `0xFFFF` (65535 entries) exactly as Rust indexing does. -/
structure CPU where
  register_a : Nat
  register_x : Nat
  register_y : Nat
  status : Nat
  pc : Nat
  memory : Nat → Nat

/-- Size of the declared memory array `[u8; 0xFFFF]`: 65535 bytes, valid
indices `0x0000` to `0xFFFE`. -/
def MEM_SIZE : Nat := 0xFFFF

/-- Embeds `CPU::new`: all registers zero, memory zero-filled. -/
def CPU.new : CPU :=
  { register_a := 0, register_x := 0, register_y := 0, status := 0, pc := 0
    memory := fun _ => 0 }

/-- Embeds `mem_read`: `self.memory[addr as usize]`; an index `≥ 0xFFFF` is
a bounds panic. -/
def mem_read (cpu : CPU) (addr : Nat) : Except CpuError Nat :=
  if addr < MEM_SIZE then .ok (cpu.memory addr) else .error .indexOutOfBounds

/-- Embeds `mem_write`: `self.memory[addr as usize] = data`; an index
`≥ 0xFFFF` is a bounds panic. -/
def mem_write (cpu : CPU) (addr data : Nat) : Except CpuError CPU :=
  if addr < MEM_SIZE then
    .ok { cpu with memory := fun i => if i = addr then data else cpu.memory i }
  else .error .indexOutOfBounds

/-- Embeds `mem_read_u16`: little-endian 16-bit read, `(hi << 8) | lo` with
`lo` at `pos` and `hi` at `pos + 1`. (In the source `pos + 1` is a `u16`
addition; it is only reached with `pos ≤ 0xFFFE`, because `mem_read pos`
panics first otherwise, so plain `Nat` addition is faithful.) -/
def mem_read_u16 (cpu : CPU) (pos : Nat) : Except CpuError Nat := do
  let lo ← mem_read cpu pos
  let hi ← mem_read cpu (pos + 1)
  pure ((hi <<< 8) ||| lo)

/-- Embeds `mem_write_u16`: splits `data` into `hi = (data >> 8) as u8` and
`lo = (data & 0xff) as u8`, writing `lo` at `pos` and `hi` at `pos + 1`. -/
def mem_write_u16 (cpu : CPU) (pos data : Nat) : Except CpuError CPU := do
  let hi := (data >>> 8) % 256
  let lo := data &&& 0xff
  let cpu ← mem_write cpu pos lo
  mem_write cpu (pos + 1) hi

/-- Embeds `update_zero_flag`: bit 1 of `status` set iff the result is
zero. -/
def update_zero_flag (cpu : CPU) (result : Nat) : CPU :=
  if result = 0 then { cpu with status := cpu.status ||| 2 }
  else { cpu with status := cpu.status &&& 253 }

/-- Embeds `update_negative_flag`: bit 7 of `status` set iff bit 7 of the
result is 1. -/
def update_negative_flag (cpu : CPU) (result : Nat) : CPU :=
  if result &&& 128 ≠ 0 then { cpu with status := cpu.status ||| 128 }
  else { cpu with status := cpu.status &&& 127 }

/-- Embeds `get_operand_address`: computes the effective operand address for
each addressing mode; `NoneAddressing` is the `panic!` arm. The `u8`
`wrapping_add`s of the zero-page-indexed and indirect-X modes are `% 256`,
the `u16` `wrapping_add`s of the absolute-indexed and indirect-Y modes are
`% 65536`. -/
def get_operand_address (cpu : CPU) (mode : AddressingMode) : Except CpuError Nat :=
  match mode with
  | .Immediate => .ok cpu.pc
  | .ZeroPage => mem_read cpu cpu.pc
  | .Absolute => mem_read_u16 cpu cpu.pc
  | .ZeroPage_X => do
    let pos ← mem_read cpu cpu.pc
    pure ((pos + cpu.register_x) % 256)
  | .ZeroPage_Y => do
    let pos ← mem_read cpu cpu.pc
    pure ((pos + cpu.register_y) % 256)
  | .Absolute_X => do
    let base ← mem_read_u16 cpu cpu.pc
    pure ((base + cpu.register_x) % 65536)
  | .Absolute_Y => do
    let base ← mem_read_u16 cpu cpu.pc
    pure ((base + cpu.register_y) % 65536)
  | .Indirect_X => do
    let base ← mem_read cpu cpu.pc
    let ptr := (base + cpu.register_x) % 256
    mem_read_u16 cpu ptr
  | .Indirect_Y => do
    let base ← mem_read cpu cpu.pc
    let derefBase ← mem_read_u16 cpu base
    pure ((derefBase + cpu.register_y) % 65536)
  | .NoneAddressing => .error .invalidAddressingModeUse

/-- Embeds `lda`: load a byte from the operand address into the accumulator
and update the Zero and Negative flags from it. -/
def lda (cpu : CPU) (mode : AddressingMode) : Except CpuError CPU := do
  let addr ← get_operand_address cpu mode
  let value ← mem_read cpu addr
  let cpu := { cpu with register_a := value }
  let cpu := update_zero_flag cpu cpu.register_a
  pure (update_negative_flag cpu cpu.register_a)

/-- Embeds `sta`: store the accumulator at the operand address. -/
def sta (cpu : CPU) (mode : AddressingMode) : Except CpuError CPU := do
  let addr ← get_operand_address cpu mode
  mem_write cpu addr cpu.register_a

/-- Embeds `tax`: copy the accumulator into X and update flags from X. -/
def tax (cpu : CPU) : CPU :=
  let cpu := { cpu with register_x := cpu.register_a }
  let cpu := update_zero_flag cpu cpu.register_x
  update_negative_flag cpu cpu.register_x

/-- Embeds `tay`: copy the accumulator into Y and update flags from Y. -/
def tay (cpu : CPU) : CPU :=
  let cpu := { cpu with register_y := cpu.register_a }
  let cpu := update_zero_flag cpu cpu.register_y
  update_negative_flag cpu cpu.register_y

/-- Embeds `inx`: `register_x.wrapping_add(1)` and update flags from X. -/
def inx (cpu : CPU) : CPU :=
  let cpu := { cpu with register_x := (cpu.register_x + 1) % 256 }
  let cpu := update_zero_flag cpu cpu.register_x
  update_negative_flag cpu cpu.register_x

/-- Embeds `iny`: `register_y.wrapping_add(1)` and update flags from Y. -/
def iny (cpu : CPU) : CPU :=
  let cpu := { cpu with register_y := (cpu.register_y + 1) % 256 }
  let cpu := update_zero_flag cpu cpu.register_y
  update_negative_flag cpu cpu.register_y

/-- Embeds `reset`: zero the accumulator, X and the status byte (Y and
memory are untouched) and load the program counter from the reset vector at
`0xFFFC`. -/
def reset (cpu : CPU) : Except CpuError CPU := do
  let cpu := { cpu with register_a := 0, register_x := 0, status := 0 }
  let pc ← mem_read_u16 cpu 0xFFFC
  pure { cpu with pc := pc }

/-- Models an opcode-table entry: addressing mode and total instruction
length in bytes, the two fields of `op_codes::OpCode` that `run`
consumes. -/
structure OpCode where
  mode : AddressingMode
  len : Nat
deriving DecidableEq, Repr

/-- Modelled from the spec: the externally supplied opcode table
(`op_codes::OP_CODES_MAP`, whose defining module is not part of this source
snapshot). The spec describes it as a fully populated mapping from opcode
byte to (addressing-mode tag, instruction length in bytes including the
opcode); the entries below are the ones pinned down by the spec's
instruction repertoire and end-to-end scenarios, with the standard lengths
(immediate, zero-page and indirect forms are 2 bytes, absolute forms 3,
implied-mode instructions and halt 1). -/
def OP_CODES_MAP (code : Nat) : Option OpCode :=
  match code with
  | 0xA9 => some ⟨.Immediate, 2⟩
  | 0xA5 => some ⟨.ZeroPage, 2⟩
  | 0xB5 => some ⟨.ZeroPage_X, 2⟩
  | 0xAD => some ⟨.Absolute, 3⟩
  | 0xBD => some ⟨.Absolute_X, 3⟩
  | 0xB9 => some ⟨.Absolute_Y, 3⟩
  | 0xA1 => some ⟨.Indirect_X, 2⟩
  | 0xB1 => some ⟨.Indirect_Y, 2⟩
  | 0x85 => some ⟨.ZeroPage, 2⟩
  | 0x95 => some ⟨.ZeroPage_X, 2⟩
  | 0x8D => some ⟨.Absolute, 3⟩
  | 0x9D => some ⟨.Absolute_X, 3⟩
  | 0x99 => some ⟨.Absolute_Y, 3⟩
  | 0x81 => some ⟨.Indirect_X, 2⟩
  | 0x91 => some ⟨.Indirect_Y, 2⟩
  | 0xAA => some ⟨.NoneAddressing, 1⟩
  | 0xA8 => some ⟨.NoneAddressing, 1⟩
  | 0xE8 => some ⟨.NoneAddressing, 1⟩
  | 0xC8 => some ⟨.NoneAddressing, 1⟩
  | 0x00 => some ⟨.NoneAddressing, 1⟩
  | _ => none

/-- Embeds the dispatch `match code { ... }` of `run`: `.ok none` is the
`return` of the halt opcode `0x00`, `.ok (some cpu)` a completed operation,
and the final arm is the `todo!()` for a table entry with no matching
operation. -/
def execute_op (cpu : CPU) (code : Nat) (opcode : OpCode) : Except CpuError (Option CPU) :=
  match code with
  | 0xA9 | 0xA5 | 0xB5 | 0xAD | 0xBD | 0xB9 | 0xA1 | 0xB1 => (lda cpu opcode.mode).map some
  | 0x85 | 0x95 | 0x8D | 0x9D | 0x99 | 0x81 | 0x91 => (sta cpu opcode.mode).map some
  | 0xAA => .ok (some (tax cpu))
  | 0xA8 => .ok (some (tay cpu))
  | 0xE8 => .ok (some (inx cpu))
  | 0xC8 => .ok (some (iny cpu))
  | 0x00 => .ok none
  | _ => .error (.notImplemented code)

/-- Outcome of one iteration of `run`'s loop. An error carries the CPU state
at the moment of the panic. -/
inductive StepOutcome where
  | halted (cpu : CPU)
  | error (e : CpuError) (cpu : CPU)
  | next (cpu : CPU)

/-- Result of a whole run; `outOfFuel` is the model's marker for a run that
did not finish within the given fuel (the Rust loop has no fuel bound). -/
inductive StepResult where
  | halted (cpu : CPU)
  | error (e : CpuError) (cpu : CPU)
  | outOfFuel (cpu : CPU)

/-- Embeds one iteration of `run`'s `loop`: fetch the opcode byte, increment
the program counter, record `old_pc` (here simply the incremented
`cpu.pc + 1`), look the byte up in the opcode table (`expect` on a missing
entry), dispatch, and — when the operation left the program counter
untouched — advance it by `opcode.len - 1` (a `u16` addition, hence
`% 65536`; `opcode.len - 1` is a `u8` subtraction in the source, which
agrees with truncated `Nat` subtraction for the table's lengths, all
`≥ 1`). The fetch increment is plain `+ 1`: it is reached only with
`pc ≤ 0xFFFE`, since `mem_read` panics first otherwise. -/
def step (opcodes : Nat → Option OpCode) (cpu : CPU) : StepOutcome :=
  match mem_read cpu cpu.pc with
  | .error e => .error e cpu
  | .ok code =>
    let cpu1 : CPU := { cpu with pc := cpu.pc + 1 }
    match opcodes code with
    | none => .error (.unsupportedOpcode code) cpu1
    | some opcode =>
      match execute_op cpu1 code opcode with
      | .error e => .error e cpu1
      | .ok none => .halted cpu1
      | .ok (some cpu2) =>
        if cpu1.pc = cpu2.pc then
          .next { cpu2 with pc := (cpu2.pc + (opcode.len - 1)) % 65536 }
        else .next cpu2

/-- Embeds `run`: iterate `step` until halt or error, with explicit fuel. -/
def run (opcodes : Nat → Option OpCode) : Nat → CPU → StepResult
  | 0, cpu => .outOfFuel cpu
  | fuel + 1, cpu =>
    match step opcodes cpu with
    | .halted c => .halted c
    | .error e c => .error e c
    | .next c => run opcodes fuel c

/-- Embeds `load`: copy the program image into memory starting at `0x8000`
(the slice `copy_from_slice` panics when the range exceeds the array) and
write `0x8000` as the little-endian reset vector at `0xFFFC`. -/
def load (cpu : CPU) (program : List Nat) : Except CpuError CPU :=
  if 0x8000 + program.length ≤ MEM_SIZE then
    let cpu : CPU := { cpu with
      memory := fun i =>
        if 0x8000 ≤ i ∧ i < 0x8000 + program.length then program.getD (i - 0x8000) 0
        else cpu.memory i }
    mem_write_u16 cpu 0xFFFC 0x8000
  else .error .indexOutOfBounds

/-- Embeds `load_and_run`: load the program, reset, then run against the
global opcode table. -/
def load_and_run (fuel : Nat) (cpu : CPU) (program : List Nat) : StepResult :=
  match load cpu program with
  | .error e => .error e cpu
  | .ok cpu1 =>
    match reset cpu1 with
    | .error e => .error e cpu1
    | .ok cpu2 => run OP_CODES_MAP fuel cpu2

/-- Projection: the final CPU state of a run that halted normally. -/
def StepResult.haltedCpu : StepResult → Option CPU
  | .halted c => some c
  | _ => none

/-- States the Indirect-X resolution as claim C4 words it: with
`ptr = (base + indexX) mod 256`, the low byte is read at zero-page address
`ptr` and the high byte at the following zero-page address
`(ptr + 1) mod 256`, never leaving the zero page. Declared only to be
compared against `get_operand_address`. -/
def indirect_x_claimed (cpu : CPU) : Except CpuError Nat := do
  let base ← mem_read cpu cpu.pc
  let ptr := (base + cpu.register_x) % 256
  let lo ← mem_read cpu ptr
  let hi ← mem_read cpu ((ptr + 1) % 256)
  pure ((hi <<< 8) ||| lo)

/-- State for the C4 counterexample: the operand byte is `0xFF`, X is zero,
so `ptr = 0xFF`; the byte at `0xFF` is `0x34`, the byte at `0x100` (outside
the zero page) is `0x12`, and the byte at `0x00` (the zero-page wrap) is
`0xFF`. -/
def c4cex : CPU :=
  { CPU.new with memory := fun i =>
      if i = 0 then 0xFF else if i = 0xFF then 0x34 else if i = 0x100 then 0x12 else 0 }

/-- State for the C2 witness: every memory byte is `0xE8` (increment-X). -/
def c2cpu : CPU := ⟨0, 0, 0, 0, 0, fun _ => 0xE8⟩

/-- State reached by the C2 witness after the fetch increment and the
increment-X operation. -/
def c2cpu2 : CPU := inx { c2cpu with pc := c2cpu.pc + 1 }

/-- State for the C8 witness: every byte of memory is `0xFF`, an opcode
absent from the table. -/
def c8cpu : CPU := ⟨0, 0, 0, 0, 0, fun _ => 0xFF⟩

/-- Helper: `mem_read` can only fail with the bounds error. -/
theorem mem_read_error_eq {cpu : CPU} {addr : Nat} {e : CpuError}
    (h : mem_read cpu addr = .error e) : e = .indexOutOfBounds := by
  unfold mem_read at h
  split at h
  · cases h
  · cases h; rfl

/-- Helper: a successful `mem_read` returns a byte when memory holds
bytes. -/
theorem mem_read_ok_lt {cpu : CPU} {addr v : Nat} (hmem : ∀ i, cpu.memory i < 256)
    (h : mem_read cpu addr = .ok v) : v < 256 := by
  unfold mem_read at h
  split at h
  · cases h; exact hmem addr
  · cases h

/-- Helper: destructing a successful `Except` bind. -/
theorem except_bind_ok {α β : Type} {x : Except CpuError α} {f : α → Except CpuError β}
    {b : β} (h : (x >>= f) = .ok b) : ∃ a, x = .ok a ∧ f a = .ok b := by
  cases x with
  | error e => simp [Bind.bind, Except.bind] at h
  | ok a => exact ⟨a, rfl, by simpa [Bind.bind, Except.bind] using h⟩

/-- Helper: an error of an `Except` bind comes from one of the two
components. -/
theorem except_bind_error {α β : Type} {x : Except CpuError α} {f : α → Except CpuError β}
    {e : CpuError} (h : (x >>= f) = .error e) :
    x = .error e ∨ ∃ a, x = .ok a ∧ f a = .error e := by
  cases x with
  | error e2 => simp only [Bind.bind, Except.bind] at h; cases h; exact Or.inl rfl
  | ok a => exact Or.inr ⟨a, rfl, by simpa [Bind.bind, Except.bind] using h⟩

/-- Helper: `pure` for `Except` is `.ok`. -/
theorem except_pure_eq_ok {α : Type} (a : α) : (pure a : Except CpuError α) = .ok a := rfl

/-- Helper: `mem_read_u16` can only fail with the bounds error. -/
theorem mem_read_u16_error_eq {cpu : CPU} {pos : Nat} {e : CpuError}
    (h : mem_read_u16 cpu pos = .error e) : e = .indexOutOfBounds := by
  unfold mem_read_u16 at h
  rcases except_bind_error h with h1 | ⟨lo, hlo, h1⟩
  · exact mem_read_error_eq h1
  · rcases except_bind_error h1 with h2 | ⟨hi, hhi, h2⟩
    · exact mem_read_error_eq h2
    · cases h2

/-- Helper: a successful `mem_read_u16` returns a 16-bit value when memory
holds bytes. -/
theorem mem_read_u16_ok_lt {cpu : CPU} {pos v : Nat} (hmem : ∀ i, cpu.memory i < 256)
    (h : mem_read_u16 cpu pos = .ok v) : v < 65536 := by
  unfold mem_read_u16 at h
  rcases except_bind_ok h with ⟨lo, hlo, h1⟩
  rcases except_bind_ok h1 with ⟨hi, hhi, h2⟩
  have hlo2 : lo < 256 := mem_read_ok_lt hmem hlo
  have hhi2 : hi < 256 := mem_read_ok_lt hmem hhi
  cases h2
  have h3 : hi <<< 8 < 2 ^ 16 := by
    rw [Nat.shiftLeft_eq]
    have : (2 : Nat) ^ 8 = 256 := by norm_num
    rw [this]
    norm_num
    omega
  have h4 : lo < 2 ^ 16 := by omega
  have := Nat.or_lt_two_pow h3 h4
  omega

/-- Claim C1: running the program `[0xA9, 0x05, 0x00]` through
`load_and_run` terminates with accumulator `0x05`, Zero flag (status bit 1)
clear and Negative flag (status bit 7) clear. -/
theorem C1_load_immediate_end_to_end : ∃ c,
    (load_and_run 10 CPU.new [0xA9, 0x05, 0x00]).haltedCpu = some c ∧
    c.register_a = 0x05 ∧ c.status &&& 2 = 0 ∧ c.status &&& 128 = 0 :=
  ⟨_, rfl, rfl, rfl, rfl⟩

/-- Claim C2: within one loop iteration, after a successful fetch, table
lookup and operation, the loop advances the program counter by
`(instruction length - 1)` exactly when the operation left it at its
pre-dispatch value (the value after the one-byte fetch increment), and
leaves it untouched when the operation moved it. -/
theorem C2_dispatch_advance (opcodes : Nat → Option OpCode) (cpu : CPU)
    (code : Nat) (opcode : OpCode) (cpu2 : CPU) (_hlen : 0 < opcode.len)
    (hfetch : mem_read cpu cpu.pc = .ok code)
    (hop : opcodes code = some opcode)
    (hexec : execute_op { cpu with pc := cpu.pc + 1 } code opcode = .ok (some cpu2)) :
    (cpu2.pc = cpu.pc + 1 →
      step opcodes cpu = .next { cpu2 with pc := (cpu2.pc + (opcode.len - 1)) % 65536 }) ∧
    (cpu2.pc ≠ cpu.pc + 1 → step opcodes cpu = .next cpu2) := by
  unfold step
  rw [hfetch]
  simp only [hop, hexec]
  constructor
  · intro h
    rw [if_pos h.symm]
  · intro h
    rw [if_neg fun hh => h hh.symm]

theorem C2_witness :
    step OP_CODES_MAP c2cpu = .next { c2cpu2 with pc := (c2cpu2.pc + (1 - 1)) % 65536 } :=
  (C2_dispatch_advance OP_CODES_MAP c2cpu 0xE8 ⟨.NoneAddressing, 1⟩ c2cpu2 (by decide)
    rfl rfl rfl).1 rfl

/-- Claim C3, counterexample: address `0xFFFF` is a 16-bit address, yet both
`mem_read` and `mem_write` fail on it with a bounds error, because the
memory array has only 65535 entries. -/
theorem C3_counterexample :
    mem_read CPU.new 0xFFFF = .error .indexOutOfBounds ∧
    mem_write CPU.new 0xFFFF 0 = .error .indexOutOfBounds := ⟨rfl, rfl⟩

/-- Claim C3, amended: for every address in `0x0000`–`0xFFFE` (below the
array size `0xFFFF`) and every byte, `mem_read` and `mem_write` succeed
with no bounds error. -/
theorem C3_mem_access_in_bounds (cpu : CPU) (addr b : Nat) (h : addr < 0xFFFF) :
    (∃ v, mem_read cpu addr = .ok v) ∧ (∃ cpu', mem_write cpu addr b = .ok cpu') := by
  unfold mem_read mem_write MEM_SIZE
  rw [if_pos h, if_pos h]
  exact ⟨⟨_, rfl⟩, ⟨_, rfl⟩⟩

theorem C3_witness :
    (∃ v, mem_read CPU.new 0 = .ok v) ∧ (∃ cpu', mem_write CPU.new 0 5 = .ok cpu') :=
  C3_mem_access_in_bounds CPU.new 0 5 (by decide)

/-- Claim C4, counterexample: the code reads the high byte at `0x100`, one
past the zero page, and resolves to `0x1234`; reading it at the wrapped
zero-page address `0x00`, as the claim describes, would give `0xFF34`. -/
theorem C4_counterexample :
    get_operand_address c4cex .Indirect_X = .ok 0x1234 ∧
    indirect_x_claimed c4cex = .ok 0xFF34 ∧ (0x1234 : Nat) ≠ 0xFF34 :=
  ⟨rfl, rfl, by decide⟩

/-- Claim C4, amended: Indirect-X computes `ptr = (base + indexX) mod 256`
and returns the little-endian word with low byte at `ptr` and high byte at
`ptr + 1` — an address that leaves the zero page when `ptr = 0xFF`. -/
theorem C4_indirect_x_resolution (cpu : CPU) (base lo hi : Nat)
    (hb : mem_read cpu cpu.pc = .ok base)
    (hlo : mem_read cpu ((base + cpu.register_x) % 256) = .ok lo)
    (hhi : mem_read cpu ((base + cpu.register_x) % 256 + 1) = .ok hi) :
    get_operand_address cpu .Indirect_X = .ok ((hi <<< 8) ||| lo) := by
  unfold get_operand_address mem_read_u16
  rw [hb]
  simp only [Bind.bind, Except.bind, hlo, hhi]
  rfl

theorem C4_witness :
    get_operand_address c4cex .Indirect_X = .ok ((0x12 <<< 8) ||| 0x34) :=
  C4_indirect_x_resolution c4cex 0xFF 0x34 0x12 rfl rfl rfl

/-- Claim C5: ZeroPage-X and ZeroPage-Y resolution return
`(operand byte + index) mod 256`; in particular base `0xFF` with index
`0x01` resolves to `0x0000`, never carrying into the high byte. -/
theorem C5_zeropage_indexed_wraps (cpu : CPU) (pos : Nat)
    (hp : mem_read cpu cpu.pc = .ok pos) :
    get_operand_address cpu .ZeroPage_X = .ok ((pos + cpu.register_x) % 256) ∧
    get_operand_address cpu .ZeroPage_Y = .ok ((pos + cpu.register_y) % 256) ∧
    (pos = 0xFF → cpu.register_x = 0x01 →
      get_operand_address cpu .ZeroPage_X = .ok 0) := by
  refine ⟨?_, ?_, ?_⟩
  · unfold get_operand_address
    rw [hp]; rfl
  · unfold get_operand_address
    rw [hp]; rfl
  · intro h1 h2
    unfold get_operand_address
    rw [hp, h1, h2]; rfl

theorem C5_witness :
    get_operand_address { CPU.new with register_x := 1, memory := fun _ => 0xFF }
      .ZeroPage_X = .ok 0 :=
  (C5_zeropage_indexed_wraps { CPU.new with register_x := 1, memory := fun _ => 0xFF }
    0xFF rfl).2.2 rfl rfl

/-- Claim C6: writing a 16-bit value little-endian at a valid address and
reading it back yields the value. -/
theorem C6_word_round_trip (cpu : CPU) (addr x : Nat) (hx : x < 65536)
    (ha : addr + 1 < 0xFFFF) :
    ∃ cpu', mem_write_u16 cpu addr x = .ok cpu' ∧ mem_read_u16 cpu' addr = .ok x := by
  have ha0 : addr < MEM_SIZE := by unfold MEM_SIZE; omega
  have ha1 : addr + 1 < MEM_SIZE := by unfold MEM_SIZE; omega
  set lo := x &&& 0xff with hlo_def
  set hi := (x >>> 8) % 256 with hhi_def
  set cpuA : CPU := { cpu with memory := fun i => if i = addr then lo else cpu.memory i }
    with hA
  set cpuB : CPU :=
    { cpuA with memory := fun i => if i = addr + 1 then hi else cpuA.memory i } with hB
  have h1 : mem_write cpu addr lo = .ok cpuA := by unfold mem_write; rw [if_pos ha0]
  have h2 : mem_write cpuA (addr + 1) hi = .ok cpuB := by unfold mem_write; rw [if_pos ha1]
  have hw : mem_write_u16 cpu addr x = .ok cpuB := by
    unfold mem_write_u16
    simp only [Bind.bind, Except.bind, ← hlo_def, ← hhi_def, h1, h2]
  have hrlo : mem_read cpuB addr = .ok lo := by
    unfold mem_read
    rw [if_pos ha0]
    have : cpuB.memory addr = lo := by
      show (if addr = addr + 1 then hi else if addr = addr then lo else cpu.memory addr) = lo
      rw [if_neg (by omega : ¬ addr = addr + 1), if_pos rfl]
    rw [this]
  have hrhi : mem_read cpuB (addr + 1) = .ok hi := by
    unfold mem_read
    rw [if_pos ha1]
    have : cpuB.memory (addr + 1) = hi := by
      show (if addr + 1 = addr + 1 then hi else
        if addr + 1 = addr then lo else cpu.memory (addr + 1)) = hi
      rw [if_pos rfl]
    rw [this]
  have hr : mem_read_u16 cpuB addr = .ok ((hi <<< 8) ||| lo) := by
    unfold mem_read_u16
    simp only [Bind.bind, Except.bind, hrlo, hrhi]
    rfl
  have key : (hi <<< 8) ||| lo = x := by
    have e1 : x >>> 8 = x / 256 := by
      rw [Nat.shiftRight_eq_div_pow]
    have e2 : x / 256 < 256 := by omega
    have e3 : lo = x % 256 := by
      rw [hlo_def]
      have h255 : (0xff : Nat) = 2 ^ 8 - 1 := by norm_num
      rw [h255, Nat.and_pow_two_sub_one_eq_mod]
    have e4 : hi = x / 256 := by rw [hhi_def, e1, Nat.mod_eq_of_lt e2]
    have h256 : (2 : Nat) ^ 8 = 256 := by norm_num
    have e5 : hi <<< 8 ||| lo = 2 ^ 8 * hi + lo := by
      rw [Nat.shiftLeft_eq, h256, Nat.mul_comm hi 256, ← h256,
        ← Nat.mul_add_lt_is_or (by rw [e3, h256]; exact Nat.mod_lt _ (by norm_num)) hi]
    rw [e5, e3, e4, h256]
    omega
  exact ⟨cpuB, hw, by rw [hr, key]⟩

theorem C6_witness : ∃ cpu',
    mem_write_u16 CPU.new 0x10 0xBEEF = .ok cpu' ∧
    mem_read_u16 cpu' 0x10 = .ok 0xBEEF :=
  C6_word_round_trip CPU.new 0x10 0xBEEF (by decide) (by decide)

/-- Claim C7: `reset` zeroes the accumulator, X and the status byte, leaves
Y and all of memory unmodified, and loads the program counter from the
little-endian reset vector at `0xFFFC`. -/
theorem C7_reset_effect (cpu : CPU) :
    ∃ pc, mem_read_u16 cpu 0xFFFC = .ok pc ∧
      reset cpu = .ok { cpu with register_a := 0, register_x := 0, status := 0, pc := pc } := by
  refine ⟨(cpu.memory 0xFFFD <<< 8) ||| cpu.memory 0xFFFC, ?_, ?_⟩ <;>
    simp [reset, mem_read_u16, mem_read, MEM_SIZE, bind, Except.bind, pure, Except.pure]

theorem C7_witness :
    ∃ pc, mem_read_u16 CPU.new 0xFFFC = .ok pc ∧
      reset CPU.new = .ok { CPU.new with
        register_a := 0, register_x := 0, status := 0, pc := pc } :=
  C7_reset_effect CPU.new

/-- Claim C8: when the run fetches an opcode byte that has no opcode-table
entry, or whose entry matches no executor operation, the run stops at once
with the corresponding fatal error, and the state it reports keeps every
register, the status byte and all memory exactly as they were — only the
program counter's fetch increment has been applied. -/
theorem C8_unsupported_opcode_stops_run (opcodes : Nat → Option OpCode)
    (fuel : Nat) (cpu : CPU) (code : Nat) (hf : 0 < fuel)
    (hfetch : mem_read cpu cpu.pc = .ok code)
    (hbad : opcodes code = none ∨
      ∃ opcode, opcodes code = some opcode ∧
        ∀ c, execute_op c code opcode = .error (.notImplemented code)) :
    ∃ e, run opcodes fuel cpu = .error e { cpu with pc := cpu.pc + 1 } ∧
      (e = .unsupportedOpcode code ∨ e = .notImplemented code) := by
  obtain ⟨k, rfl⟩ : ∃ k, fuel = k + 1 := ⟨fuel - 1, by omega⟩
  unfold run step
  rw [hfetch]
  rcases hbad with hnone | ⟨opcode, hsome, hni⟩
  · simp only [hnone]
    exact ⟨_, rfl, Or.inl rfl⟩
  · simp only [hsome, hni]
    exact ⟨_, rfl, Or.inr rfl⟩

theorem C8_witness :
    ∃ e, run OP_CODES_MAP 1 c8cpu = .error e { c8cpu with pc := c8cpu.pc + 1 } ∧
      (e = .unsupportedOpcode 0xFF ∨ e = .notImplemented 0xFF) :=
  C8_unsupported_opcode_stops_run OP_CODES_MAP 1 c8cpu 0xFF (by decide) rfl (Or.inl rfl)

/-- Claim C9: the resolver never returns an address for the no-addressing
sentinel — it always signals the contract-violation error — while for each
of the nine address-carrying modes it never signals that error, and any
address it does return fits in 16 bits. -/
theorem C9_resolver_contract (cpu : CPU) (hpc : cpu.pc < 65536)
    (hmem : ∀ i, cpu.memory i < 256) :
    get_operand_address cpu .NoneAddressing = .error .invalidAddressingModeUse ∧
    ∀ mode, mode ≠ AddressingMode.NoneAddressing →
      get_operand_address cpu mode ≠ .error .invalidAddressingModeUse ∧
      ∀ a, get_operand_address cpu mode = .ok a → a < 65536 := by
  refine ⟨rfl, ?_⟩
  intro mode hmode
  cases mode with
  | NoneAddressing => exact absurd rfl hmode
  | Immediate =>
    refine ⟨by simp [get_operand_address], ?_⟩
    intro a ha
    simp only [get_operand_address] at ha
    cases ha
    exact hpc
  | ZeroPage =>
    refine ⟨?_, ?_⟩
    · intro h
      simp only [get_operand_address] at h
      cases mem_read_error_eq h
    · intro a ha
      simp only [get_operand_address] at ha
      have := mem_read_ok_lt hmem ha
      omega
  | Absolute =>
    refine ⟨?_, ?_⟩
    · intro h
      simp only [get_operand_address] at h
      cases mem_read_u16_error_eq h
    · intro a ha
      simp only [get_operand_address] at ha
      exact mem_read_u16_ok_lt hmem ha
  | ZeroPage_X =>
    refine ⟨?_, ?_⟩
    · intro h
      simp only [get_operand_address] at h
      rcases except_bind_error h with h1 | ⟨pos, hpos, h1⟩
      · cases mem_read_error_eq h1
      · rw [except_pure_eq_ok] at h1; cases h1
    · intro a ha
      simp only [get_operand_address] at ha
      rcases except_bind_ok ha with ⟨pos, hpos, h1⟩
      rw [except_pure_eq_ok] at h1
      cases h1
      have : (pos + cpu.register_x) % 256 < 256 := Nat.mod_lt _ (by norm_num)
      omega
  | ZeroPage_Y =>
    refine ⟨?_, ?_⟩
    · intro h
      simp only [get_operand_address] at h
      rcases except_bind_error h with h1 | ⟨pos, hpos, h1⟩
      · cases mem_read_error_eq h1
      · rw [except_pure_eq_ok] at h1; cases h1
    · intro a ha
      simp only [get_operand_address] at ha
      rcases except_bind_ok ha with ⟨pos, hpos, h1⟩
      rw [except_pure_eq_ok] at h1
      cases h1
      have : (pos + cpu.register_y) % 256 < 256 := Nat.mod_lt _ (by norm_num)
      omega
  | Absolute_X =>
    refine ⟨?_, ?_⟩
    · intro h
      simp only [get_operand_address] at h
      rcases except_bind_error h with h1 | ⟨base, hbase, h1⟩
      · cases mem_read_u16_error_eq h1
      · rw [except_pure_eq_ok] at h1; cases h1
    · intro a ha
      simp only [get_operand_address] at ha
      rcases except_bind_ok ha with ⟨base, hbase, h1⟩
      rw [except_pure_eq_ok] at h1
      cases h1
      exact Nat.mod_lt _ (by norm_num)
  | Absolute_Y =>
    refine ⟨?_, ?_⟩
    · intro h
      simp only [get_operand_address] at h
      rcases except_bind_error h with h1 | ⟨base, hbase, h1⟩
      · cases mem_read_u16_error_eq h1
      · rw [except_pure_eq_ok] at h1; cases h1
    · intro a ha
      simp only [get_operand_address] at ha
      rcases except_bind_ok ha with ⟨base, hbase, h1⟩
      rw [except_pure_eq_ok] at h1
      cases h1
      exact Nat.mod_lt _ (by norm_num)
  | Indirect_X =>
    refine ⟨?_, ?_⟩
    · intro h
      simp only [get_operand_address] at h
      rcases except_bind_error h with h1 | ⟨base, hbase, h1⟩
      · cases mem_read_error_eq h1
      · cases mem_read_u16_error_eq h1
    · intro a ha
      simp only [get_operand_address] at ha
      rcases except_bind_ok ha with ⟨base, hbase, h1⟩
      exact mem_read_u16_ok_lt hmem h1
  | Indirect_Y =>
    refine ⟨?_, ?_⟩
    · intro h
      simp only [get_operand_address] at h
      rcases except_bind_error h with h1 | ⟨base, hbase, h1⟩
      · cases mem_read_error_eq h1
      · rcases except_bind_error h1 with h2 | ⟨d, hd, h2⟩
        · cases mem_read_u16_error_eq h2
        · rw [except_pure_eq_ok] at h2; cases h2
    · intro a ha
      simp only [get_operand_address] at ha
      rcases except_bind_ok ha with ⟨base, hbase, h1⟩
      rcases except_bind_ok h1 with ⟨d, hd, h2⟩
      rw [except_pure_eq_ok] at h2
      cases h2
      exact Nat.mod_lt _ (by norm_num)

theorem C9_witness :
    get_operand_address CPU.new .NoneAddressing = .error .invalidAddressingModeUse ∧
    get_operand_address CPU.new .Immediate ≠ .error .invalidAddressingModeUse :=
  ⟨(C9_resolver_contract CPU.new (by decide) fun _ => Nat.succ_pos 255).1,
   ((C9_resolver_contract CPU.new (by decide) fun _ => Nat.succ_pos 255).2 .Immediate
     (by decide)).1⟩

/-- Claim C10: when the run is at a state whose next byte is the Halt opcode
`0x00` (present in the opcode table), the run halts with every register, the
status byte and all memory unchanged, and the program counter equal to the
Halt opcode's address plus one: only the fetch increment is applied, no
length-based advance. -/
theorem C10_halt_preserves_state (opcodes : Nat → Option OpCode) (fuel : Nat)
    (cpu : CPU) (opcode : OpCode) (hf : 0 < fuel)
    (hfetch : mem_read cpu cpu.pc = .ok 0x00)
    (hop : opcodes 0x00 = some opcode) :
    run opcodes fuel cpu = .halted { cpu with pc := cpu.pc + 1 } := by
  obtain ⟨k, rfl⟩ : ∃ k, fuel = k + 1 := ⟨fuel - 1, by omega⟩
  unfold run step
  rw [hfetch]
  simp only [hop]
  rfl

theorem C10_witness :
    run OP_CODES_MAP 1 CPU.new = .halted { CPU.new with pc := CPU.new.pc + 1 } :=
  C10_halt_preserves_state OP_CODES_MAP 1 CPU.new ⟨.NoneAddressing, 1⟩ (by decide) rfl rfl

end Nese
